import Mathlib

/-!
Verification of the Grid-Indexed Climate Ingestion & Aggregation Pipeline
(`scripts/compute_et0.py`, `scripts/ingest_climate.py`, `scripts/aggregate_7days.py`,
`scripts/fetch_nasa_power.py`).

Numeric model: Python floats are embedded as exact rationals (ℚ).  Python's
`math.exp` and the float power operator `**` are transcendental and can both
raise `OverflowError` on large arguments, so they are modelled as explicit
*fault-capable* function parameters `pexp : ℚ → Except Unit ℚ` and
`ppow : ℚ → ℚ → Except Unit ℚ`; every theorem below is quantified over them,
i.e. holds for an arbitrary interpretation of `exp` and `**`, faulting or
not.  Division raises `ZeroDivisionError` on a zero divisor and is modelled
as `pdiv`, returning in the same `Except` monad; a propagated Python
exception is an `Except.error` value.  (A negative float base with a
fractional exponent yields a complex number in Python rather than raising;
that value makes the `max` comparison inside compute_et0's `try:` block
raise TypeError, which is caught there — a None result, consistent with
every theorem below.)
-/

namespace ETMap

/-- Python division `a / b`: raises (models `ZeroDivisionError`) when `b = 0`. -/
def pdiv (a b : ℚ) : Except Unit ℚ :=
  if b = 0 then .error () else .ok (a / b)

/-- Round a rational to the nearest integer, ties to even
(the rounding used by Python's built-in `round`). -/
def roundHalfEven (q : ℚ) : ℤ :=
  let n := ⌊q⌋
  let f := q - n
  if f < 1/2 then n
  else if 1/2 < f then n + 1
  else if Even n then n else n + 1

/-- Python `round(x, 2)`: round to two decimal places, ties to even. -/
def pyRound2 (q : ℚ) : ℚ :=
  (roundHalfEven (q * 100) : ℚ) / 100

/-- Round a rational to the nearest integer, ties away from zero
(the rounding used by PostgreSQL `ROUND` on `numeric`). -/
def roundHalfAway (q : ℚ) : ℤ :=
  if 0 ≤ q then ⌊q + 1/2⌋ else -⌊(1/2) - q⌋

/-- PostgreSQL `ROUND(x::numeric, 2)`. -/
def pgRound2 (q : ℚ) : ℚ :=
  (roundHalfAway (q * 100) : ℚ) / 100

/-- `saturation_vapor_pressure` (compute_et0.py): es(T) for a known (non-None)
temperature.  Two faults can arise at line 20: the argument of `math.exp` is
a division that raises `ZeroDivisionError` when `T + 237.3 = 0`, and
`math.exp` itself raises `OverflowError` when its argument is too large
(reached for T slightly below −237.3) — `pexp` is fault-capable to model
this.  (The `T is None` branch of the Python function is handled at the call
site in `compute_et0`, which never passes None here.) -/
def saturation_vapor_pressure (pexp : ℚ → Except Unit ℚ) (T : ℚ) :
    Except Unit ℚ :=
  match pdiv (17.27 * T) (T + 237.3) with
  | .error e => .error e
  | .ok a =>
    match pexp a with
    | .error e => .error e
    | .ok y => .ok (0.6108 * y)

/-- `delta_svp` (compute_et0.py): slope of the saturation vapor pressure curve;
divides by `(T + 237.3) ** 2`. -/
def delta_svp (pexp : ℚ → Except Unit ℚ) (T : ℚ) : Except Unit ℚ :=
  match saturation_vapor_pressure pexp T with
  | .error e => .error e
  | .ok es => pdiv (4098 * es) ((T + 237.3) ^ 2)

/-- `psychrometric_constant` (compute_et0.py); `ppow` models the Python float
power `**` with exponent 5.26, which can raise `OverflowError` for a huge
positive base — this call happens at line 55 of `compute_et0`, outside its
`try:` block, so such a fault propagates. -/
def psychrometric_constant (ppow : ℚ → ℚ → Except Unit ℚ) (alt : ℚ) :
    Except Unit ℚ :=
  match ppow ((293 - 0.0065 * alt) / 293) 5.26 with
  | .error e => .error e
  | .ok p => .ok (0.000665 * (101.3 * p))

/-- ALTITUDE_DEFAULT (compute_et0.py): Jendouba altitude in meters. -/
def ALTITUDE_DEFAULT : ℚ := 143

/-- The body of the `try:` block of `compute_et0`: the Penman-Monteith formula
itself.  Any division by zero inside it is caught by `except Exception` and
converted to `None`. -/
def et0TryBlock (tmean es ea delta gamma solar_rad wind : ℚ) : Option ℚ :=
  match pdiv 900 (tmean + 273) with
  | .error _ => none
  | .ok q =>
    let numerator1 := 0.408 * delta * (solar_rad - 0)
    let numerator2 := gamma * q * wind * (es - ea)
    let denominator := delta + gamma * (1 + 0.34 * wind)
    match pdiv (numerator1 + numerator2) denominator with
    | .error _ => none
    | .ok et0 => some (pyRound2 (max et0 0))

/-- `compute_et0` (compute_et0.py): FAO-56 Penman-Monteith.  Returns
`.ok none` for a missing input or negative radiation, `.ok (some v)` for a
computed value, and `.error ()` when a Python exception escapes the function
(the vapor-pressure computations at lines 48 and 52 and the psychrometric
constant at line 55 sit outside the `try:` block). -/
def compute_et0 (pexp : ℚ → Except Unit ℚ) (ppow : ℚ → ℚ → Except Unit ℚ)
    (tmin tmax solar_rad rh wind : Option ℚ)
    (altitude : ℚ := ALTITUDE_DEFAULT) : Except Unit (Option ℚ) :=
  match tmin, tmax, solar_rad, rh, wind with
  | some tmin, some tmax, some solar_rad, some rh, some wind =>
    if solar_rad < 0 then .ok none
    else
      let tmean := (tmin + tmax) / 2
      match saturation_vapor_pressure pexp tmean with
      | .error e => .error e
      | .ok es =>
        let ea := es * (rh / 100)
        match delta_svp pexp tmean with
        | .error e => .error e
        | .ok delta =>
          match psychrometric_constant ppow altitude with
          | .error e => .error e
          | .ok gamma => .ok (et0TryBlock tmean es ea delta gamma solar_rad wind)
  | _, _, _, _, _ => .ok none

lemma roundHalfEven_nonneg {q : ℚ} (h : 0 ≤ q) : 0 ≤ roundHalfEven q := by
  unfold roundHalfEven
  have hf : (0 : ℤ) ≤ ⌊q⌋ := Int.floor_nonneg.mpr h
  dsimp only
  split
  · exact hf
  · split
    · omega
    · split
      · exact hf
      · omega

lemma pyRound2_nonneg {q : ℚ} (h : 0 ≤ q) : 0 ≤ pyRound2 q := by
  unfold pyRound2
  have : (0 : ℚ) ≤ (roundHalfEven (q * 100) : ℚ) := by
    exact_mod_cast roundHalfEven_nonneg (by positivity)
  positivity

lemma pyRound2_mul_hundred_den (q : ℚ) : (pyRound2 q * 100).den = 1 := by
  unfold pyRound2
  have h : (roundHalfEven (q * 100) : ℚ) / 100 * 100 = (roundHalfEven (q * 100) : ℚ) := by
    field_simp
  rw [h]
  exact Rat.den_intCast _

lemma et0TryBlock_some {tmean es ea delta gamma solar_rad wind v : ℚ}
    (h : et0TryBlock tmean es ea delta gamma solar_rad wind = some v) :
    0 ≤ v ∧ (v * 100).den = 1 := by
  unfold et0TryBlock at h
  rcases hq : pdiv 900 (tmean + 273) with _ | q
  · rw [hq] at h; exact absurd h (by simp)
  · rw [hq] at h
    dsimp only at h
    rcases hd : pdiv
        (0.408 * delta * (solar_rad - 0) + gamma * q * wind * (es - ea))
        (delta + gamma * (1 + 0.34 * wind)) with _ | et0
    · rw [hd] at h; exact absurd h (by simp)
    · rw [hd] at h
      simp only [Option.some.injEq] at h
      subst h
      exact ⟨pyRound2_nonneg (le_max_right _ _), pyRound2_mul_hundred_den _⟩

/-- C1: for every interpretation of the transcendental primitives (faulting
or not) and every input tuple, `compute_et0` returns None when any of the
five meteorological inputs is None or when radiation is negative; and
whenever it returns a number, that number is non-negative and is an exact
multiple of 1/100 (rounded to two decimal places). -/
theorem claim_C1 (pexp : ℚ → Except Unit ℚ) (ppow : ℚ → ℚ → Except Unit ℚ)
    (tmin tmax solar_rad rh wind : Option ℚ) (altitude : ℚ) :
    ((tmin = none ∨ tmax = none ∨ solar_rad = none ∨ rh = none ∨ wind = none) →
      compute_et0 pexp ppow tmin tmax solar_rad rh wind altitude = .ok none) ∧
    (∀ r, solar_rad = some r → r < 0 →
      compute_et0 pexp ppow tmin tmax solar_rad rh wind altitude = .ok none) ∧
    (∀ v, compute_et0 pexp ppow tmin tmax solar_rad rh wind altitude = .ok (some v) →
      0 ≤ v ∧ (v * 100).den = 1) := by
  refine ⟨?_, ?_, ?_⟩
  · intro hnone
    rcases tmin with _ | a
    · rfl
    rcases tmax with _ | b
    · rfl
    rcases solar_rad with _ | r
    · rfl
    rcases rh with _ | h
    · rfl
    rcases wind with _ | w
    · rfl
    simp at hnone
  · rintro r rfl hr
    rcases tmin with _ | a
    · rfl
    rcases tmax with _ | b
    · rfl
    rcases rh with _ | h
    · rfl
    rcases wind with _ | w
    · rfl
    simp only [compute_et0]
    rw [if_pos hr]
  · intro v hv
    rcases tmin with _ | a
    · exact absurd (show (Except.ok none : Except Unit (Option ℚ)) = .ok (some v) from hv)
        (by simp)
    rcases tmax with _ | b
    · exact absurd (show (Except.ok none : Except Unit (Option ℚ)) = .ok (some v) from hv)
        (by simp)
    rcases solar_rad with _ | r
    · exact absurd (show (Except.ok none : Except Unit (Option ℚ)) = .ok (some v) from hv)
        (by simp)
    rcases rh with _ | h
    · exact absurd (show (Except.ok none : Except Unit (Option ℚ)) = .ok (some v) from hv)
        (by simp)
    rcases wind with _ | w
    · exact absurd (show (Except.ok none : Except Unit (Option ℚ)) = .ok (some v) from hv)
        (by simp)
    simp only [compute_et0] at hv
    by_cases hr : r < 0
    · rw [if_pos hr] at hv
      exact absurd hv (by simp)
    · rw [if_neg hr] at hv
      rcases hes : saturation_vapor_pressure pexp ((a + b) / 2) with e | es
      · rw [hes] at hv
        exact absurd hv (by simp)
      · rw [hes] at hv
        rcases hde : delta_svp pexp ((a + b) / 2) with e | delta
        · rw [hde] at hv
          exact absurd hv (by simp)
        · rw [hde] at hv
          rcases hga : psychrometric_constant ppow altitude with e | gamma
          · rw [hga] at hv
            exact absurd hv (by simp)
          · rw [hga] at hv
            exact et0TryBlock_some (Except.ok.inj hv)

/-- Witness for C1: a missing input yields None, negative radiation yields
None, and a concrete computed value (with exp and ** interpreted as the
non-faulting constant 1) is non-negative and a multiple of 1/100. -/
theorem claim_C1_witness :
    compute_et0 (fun _ => .ok 1) (fun _ _ => .ok 1)
      none (some 20) (some 5) (some 50) (some 2) 143 = .ok none ∧
    compute_et0 (fun _ => .ok 1) (fun _ _ => .ok 1)
      (some 10) (some 20) (some (-1)) (some 50) (some 2) 143 = .ok none ∧
    (0 ≤ (137/100 : ℚ) ∧ ((137/100 : ℚ) * 100).den = 1) :=
  ⟨(claim_C1 (fun _ => .ok 1) (fun _ _ => .ok 1) none (some 20) (some 5) (some 50)
      (some 2) 143).1 (Or.inl rfl),
   (claim_C1 (fun _ => .ok 1) (fun _ _ => .ok 1) (some 10) (some 20) (some (-1))
      (some 50) (some 2) 143).2.1 (-1) rfl (by norm_num),
   (claim_C1 (fun _ => .ok 1) (fun _ _ => .ok 1) (some 10) (some 20) (some 5)
      (some 50) (some 2) 143).2.2 (137/100) (by
        norm_num [compute_et0, saturation_vapor_pressure, delta_svp, pdiv,
          et0TryBlock, psychrometric_constant, pyRound2, roundHalfEven])⟩

/-- One per-date record produced by `fetch_data`. -/
structure DayRecord where
  date : String
  tmin : Option ℚ
  tmax : Option ℚ
  radiation : Option ℚ
  rain : Option ℚ
  rh : Option ℚ
  wind : Option ℚ
deriving DecidableEq

/-- The sentinel replacement applied to every field (fetch_nasa_power.py
lines 45-50): `None if v == -999.0 else v`, on top of dict `.get` which is
already `None` for a missing key. -/
def norm999 (v : Option ℚ) : Option ℚ :=
  match v with
  | none => none
  | some x => if x = -999 then none else some x

/-- The decoded `properties.parameter` object of a NASA POWER response.
`hasT2MMin` models the guard `if not data or "T2M_MIN" not in data`;
`dates` models `data["T2M_MIN"].keys()`. -/
structure PowerParams where
  hasT2MMin : Bool
  dates : List String
  t2mMin : List (String × ℚ)
  t2mMax : List (String × ℚ)
  radiation : List (String × ℚ)
  rain : List (String × ℚ)
  rh : List (String × ℚ)
  wind : List (String × ℚ)
deriving DecidableEq

/-- The record built for one date key (fetch_nasa_power.py lines 43-51). -/
def mkDayRecord (p : PowerParams) (k : String) : DayRecord :=
  { date := k
    tmin := norm999 (p.t2mMin.lookup k)
    tmax := norm999 (p.t2mMax.lookup k)
    radiation := norm999 (p.radiation.lookup k)
    rain := norm999 (p.rain.lookup k)
    rh := norm999 (p.rh.lookup k)
    wind := norm999 (p.wind.lookup k) }

/-- Lines 36-53 of fetch_nasa_power.py: empty series when the parameter data
is missing, otherwise one record per date key of T2M_MIN. -/
def parsePower (p : PowerParams) : List DayRecord :=
  if p.hasT2MMin then p.dates.map (mkDayRecord p) else []

/-- Abstract outcome of the per-cell HTTP request. -/
inductive FetchOutcome where
  | netError : FetchOutcome
  | httpOk : Except Unit PowerParams → FetchOutcome

/-- `fetch_data` (fetch_nasa_power.py): a network fault or non-success
response is caught and yields `[]`; a body that fails JSON decoding raises
outside the handler (`.error`); otherwise the parsed, sentinel-normalized
series is returned. -/
def fetch_data (o : FetchOutcome) : Except Unit (List DayRecord) :=
  match o with
  | .netError => .ok []
  | .httpOk (.error e) => .error e
  | .httpOk (.ok p) => .ok (parsePower p)

/-- The `__main__` fetch loop (fetch_nasa_power.py lines 114-140): cells are
fetched sequentially; an uncaught exception from `fetch_data` aborts the
whole batch; a cell with an empty series contributes no entry.  A cell with
a non-empty series is appended and its first day printed as a sample (line
138): the f-string formats `sample['tmin']` and `sample['tmax']` with
`:.1f`, which raises an uncaught TypeError when either is None (as happens
after −999 sentinel normalization) — that abort path is the second `.error`
case below, and it loses the whole batch. -/
def runFetchBatch (oracle : ℕ → FetchOutcome) : List ℕ →
    Except Unit (List (ℕ × List DayRecord))
  | [] => .ok []
  | c :: cs =>
    match fetch_data (oracle c) with
    | .error e => .error e
    | .ok [] => runFetchBatch oracle cs
    | .ok (d :: ds) =>
      if d.tmin = none ∨ d.tmax = none then .error ()
      else
        match runFetchBatch oracle cs with
        | .error e => .error e
        | .ok rest => .ok ((c, d :: ds) :: rest)

lemma norm999_ne_sentinel (v : Option ℚ) : norm999 v ≠ some (-999) := by
  rcases v with _ | x
  · simp [norm999]
  · rcases eq_or_ne x (-999) with h | h <;> simp [norm999, h]

/-- C8: every record leaving `fetch_data` has had the −999 sentinel
normalized away in every field: no field equals −999, values equal to the
sentinel become unknown, and all other values pass through unchanged. -/
theorem claim_C8 (p : PowerParams) (r : DayRecord) (hr : r ∈ parsePower p) :
    (r.tmin ≠ some (-999) ∧ r.tmax ≠ some (-999) ∧ r.radiation ≠ some (-999) ∧
     r.rain ≠ some (-999) ∧ r.rh ≠ some (-999) ∧ r.wind ≠ some (-999)) ∧
    norm999 (some (-999)) = none ∧
    (∀ v : ℚ, v ≠ -999 → norm999 (some v) = some v) := by
  refine ⟨?_, by simp [norm999], fun v hv => by simp [norm999, hv]⟩
  rw [parsePower] at hr
  rcases hp : p.hasT2MMin with _ | _ <;> rw [hp] at hr
  · simp at hr
  · rw [if_pos rfl] at hr
    obtain ⟨k, _, rfl⟩ := List.mem_map.mp hr
    exact ⟨norm999_ne_sentinel _, norm999_ne_sentinel _, norm999_ne_sentinel _,
      norm999_ne_sentinel _, norm999_ne_sentinel _, norm999_ne_sentinel _⟩

/-- Concrete parameter object used by the C8 witness: radiation carries the
−999 sentinel on the single date, the other parameters carry real values. -/
def paramsC8 : PowerParams :=
  { hasT2MMin := true
    dates := ["20240501"]
    t2mMin := [("20240501", 15.5)]
    t2mMax := [("20240501", 28.3)]
    radiation := [("20240501", -999)]
    rain := [("20240501", 0)]
    rh := [("20240501", 65)]
    wind := [("20240501", 2.1)] }

/-- Witness for C8: on a concrete response whose radiation is the −999
sentinel, the produced record satisfies the sentinel-free guarantee. -/
theorem claim_C8_witness :
    ((mkDayRecord paramsC8 "20240501").tmin ≠ some (-999) ∧
     (mkDayRecord paramsC8 "20240501").tmax ≠ some (-999) ∧
     (mkDayRecord paramsC8 "20240501").radiation ≠ some (-999) ∧
     (mkDayRecord paramsC8 "20240501").rain ≠ some (-999) ∧
     (mkDayRecord paramsC8 "20240501").rh ≠ some (-999) ∧
     (mkDayRecord paramsC8 "20240501").wind ≠ some (-999)) ∧
    norm999 (some (-999)) = none ∧
    (∀ v : ℚ, v ≠ -999 → norm999 (some v) = some v) :=
  claim_C8 paramsC8 (mkDayRecord paramsC8 "20240501") (by simp [parsePower, paramsC8])

/-- Concrete parameter object used by the C9 counterexample: a well-formed
response with all fields valid. -/
def paramsC9 : PowerParams :=
  { hasT2MMin := true
    dates := ["20240501"]
    t2mMin := [("20240501", 15.5)]
    t2mMax := [("20240501", 28.3)]
    radiation := [("20240501", 22.5)]
    rain := [("20240501", 0)]
    rh := [("20240501", 65)]
    wind := [("20240501", 2.1)] }

/-- A second well-formed response whose T2M_MIN carries the −999 sentinel,
so the parsed first day has tmin = None. -/
def paramsC9b : PowerParams :=
  { hasT2MMin := true
    dates := ["20240501"]
    t2mMin := [("20240501", -999)]
    t2mMax := [("20240501", 28.3)]
    radiation := [("20240501", 22.5)]
    rain := [("20240501", 0)]
    rh := [("20240501", 65)]
    wind := [("20240501", 2.1)] }

/-- Oracle for the C9 counterexample: cell 0 answers with an HTTP-success
response whose body fails JSON decoding; cell 1 answers with good data. -/
def oracleC9 : ℕ → FetchOutcome :=
  fun c => if c = 0 then .httpOk (.error ()) else .httpOk (.ok paramsC9)

/-- Oracle exhibiting the second abort path: a single cell whose payload is
well-formed but whose first day has a sentinel (None) tmin. -/
def oracleC9b : ℕ → FetchOutcome :=
  fun _ => .httpOk (.ok paramsC9b)

/-- C9 counterexample, two abort paths: (1) a malformed payload for one cell
is NOT isolated — `response.json()` raises outside the `try` block and the
batch aborts even though the other cell's fetch would succeed with a
non-empty series; (2) even with every payload well-formed, a successfully
fetched cell whose first day has an unknown tmin aborts the batch through
the sample-print TypeError at line 138. -/
theorem claim_C9_counterexample :
    (runFetchBatch oracleC9 [0, 1] = .error () ∧
     fetch_data (oracleC9 1) = .ok [mkDayRecord paramsC9 "20240501"] ∧
     ([mkDayRecord paramsC9 "20240501"] : List DayRecord) ≠ []) ∧
    (runFetchBatch oracleC9b [0] = .error () ∧
     (∀ e, oracleC9b 0 ≠ .httpOk (.error e)) ∧
     fetch_data (oracleC9b 0) = .ok [mkDayRecord paramsC9b "20240501"]) := by
  refine ⟨⟨?_, ?_, by simp⟩, ?_, by simp [oracleC9b], ?_⟩
  · simp [runFetchBatch, oracleC9, fetch_data]
  · simp [oracleC9, fetch_data, parsePower, paramsC9]
  · simp [runFetchBatch, oracleC9b, fetch_data, parsePower, paramsC9b,
      mkDayRecord, norm999]
  · simp [oracleC9b, fetch_data, parsePower, paramsC9b]

/-- C9 amended: the batch never aborts provided no cell's response body
fails JSON decoding AND no successfully fetched cell's first day has an
unknown tmin or tmax (the line-138 sample print).  Under those provisos,
network faults and non-success responses are isolated (they yield an empty
series for that cell), every cell whose fetch succeeds with a non-empty
series has its data in the returned batch, and the batch contains nothing
else. -/
theorem claim_C9_amended (oracle : ℕ → FetchOutcome) (cells : List ℕ)
    (hok : ∀ c ∈ cells, ∀ e, oracle c ≠ .httpOk (.error e))
    (hfmt : ∀ c ∈ cells, ∀ d ds, fetch_data (oracle c) = .ok (d :: ds) →
      d.tmin ≠ none ∧ d.tmax ≠ none) :
    ∃ l, runFetchBatch oracle cells = .ok l ∧
      (∀ c ∈ cells, ∀ ds, fetch_data (oracle c) = .ok ds → ds ≠ [] → (c, ds) ∈ l) ∧
      (∀ c ds, (c, ds) ∈ l → c ∈ cells ∧ fetch_data (oracle c) = .ok ds ∧ ds ≠ []) ∧
      (∀ c ∈ cells, oracle c = .netError → fetch_data (oracle c) = .ok []) := by
  induction cells with
  | nil => exact ⟨[], rfl, by simp, by simp, by simp⟩
  | cons c cs ih =>
    obtain ⟨l, hl, hin, hsound, hnet⟩ :=
      ih (fun x hx e => hok x (by simp [hx]) e)
        (fun x hx d ds hf => hfmt x (by simp [hx]) d ds hf)
    have hds : ∃ ds, fetch_data (oracle c) = .ok ds := by
      rcases ho : oracle c with _ | body
      · exact ⟨[], rfl⟩
      · rcases body with e | p
        · exact absurd ho (hok c (by simp) e)
        · exact ⟨parsePower p, rfl⟩
    obtain ⟨ds, hds⟩ := hds
    rcases ds with _ | ⟨d, ds2⟩
    · refine ⟨l, ?_, ?_, ?_, ?_⟩
      · rw [runFetchBatch, hds]
        exact hl
      · intro x hx es hes hne
        rcases List.mem_cons.mp hx with rfl | hx
        · rw [hds] at hes
          obtain rfl := Except.ok.inj hes
          exact absurd rfl hne
        · exact hin x hx es hes hne
      · intro x es hmem
        obtain ⟨hx, hf, hne⟩ := hsound x es hmem
        exact ⟨by simp [hx], hf, hne⟩
      · intro x hx hnx
        rcases List.mem_cons.mp hx with rfl | hx
        · rw [hnx]; rfl
        · exact hnet x hx hnx
    · have hft := hfmt c (by simp) d ds2 hds
      have hcond : ¬(d.tmin = none ∨ d.tmax = none) := by
        rintro (hc | hc)
        exacts [hft.1 hc, hft.2 hc]
      refine ⟨(c, d :: ds2) :: l, ?_, ?_, ?_, ?_⟩
      · rw [runFetchBatch, hds]
        show (if d.tmin = none ∨ d.tmax = none then Except.error () else _) = _
        rw [if_neg hcond, hl]
      · intro x hx es hes hne
        rcases List.mem_cons.mp hx with rfl | hx
        · rw [hds] at hes
          obtain rfl := Except.ok.inj hes
          exact List.mem_cons_self _ _
        · exact List.mem_cons_of_mem _ (hin x hx es hes hne)
      · intro x es hmem
        rcases List.mem_cons.mp hmem with heq | hmem
        · have h1 : x = c := (Prod.ext_iff.mp heq).1
          have h2 : es = d :: ds2 := (Prod.ext_iff.mp heq).2
          subst h1
          exact ⟨by simp, by rw [h2]; exact hds, by rw [h2]; simp⟩
        · obtain ⟨hx, hf, hne⟩ := hsound x es hmem
          exact ⟨by simp [hx], hf, hne⟩
      · intro x hx hnx
        rcases List.mem_cons.mp hx with rfl | hx
        · rw [hnx]; rfl
        · exact hnet x hx hnx

/-- Oracle for the C9 witness: cell 0 times out (network fault), cell 1
answers with good data whose first day has known tmin and tmax; no body is
malformed. -/
def oracleC9w : ℕ → FetchOutcome :=
  fun c => if c = 0 then .netError else .httpOk (.ok paramsC9)

/-- Witness for C9 amended: with one timed-out cell and one good cell the
batch completes, the failed cell yields an empty series, and the good cell's
data is returned. -/
theorem claim_C9_amended_witness :
    ∃ l, runFetchBatch oracleC9w [0, 1] = .ok l ∧
      (∀ c ∈ [0, 1], ∀ ds, fetch_data (oracleC9w c) = .ok ds → ds ≠ [] → (c, ds) ∈ l) ∧
      (∀ c ds, (c, ds) ∈ l → c ∈ [0, 1] ∧ fetch_data (oracleC9w c) = .ok ds ∧ ds ≠ []) ∧
      (∀ c ∈ [0, 1], oracleC9w c = .netError → fetch_data (oracleC9w c) = .ok []) :=
  claim_C9_amended oracleC9w [0, 1]
    (by
      intro c hc e
      fin_cases hc <;> simp [oracleC9w])
    (by
      intro c hc d ds hf
      fin_cases hc
      · simp [oracleC9w, fetch_data] at hf
      · rw [show fetch_data (oracleC9w 1) = .ok [mkDayRecord paramsC9 "20240501"]
            from by simp [oracleC9w, fetch_data, parsePower, paramsC9]] at hf
        have hl2 := Except.ok.inj hf
        injection hl2 with h1 h2
        have ht1 : (mkDayRecord paramsC9 "20240501").tmin = some (31/2) := by
          norm_num [mkDayRecord, paramsC9, norm999, List.lookup]
        have ht2 : (mkDayRecord paramsC9 "20240501").tmax = some (283/10) := by
          norm_num [mkDayRecord, paramsC9, norm999, List.lookup]
        rw [← h1]
        exact ⟨by rw [ht1]; simp, by rw [ht2]; simp⟩)

/-!
## Ingestion Pipeline (`scripts/ingest_climate.py`)

The `climate_daily` table is modelled as a list of rows in insertion order;
dates are opaque day numbers (ℤ).  `INSERT ... ON CONFLICT (geohash, date)
DO NOTHING` appends a row only when no row with the same key exists.
-/

/-- One row of the `climate_daily` table (the 9-tuple built at lines
116-126 of ingest_climate.py). -/
structure DailyRow where
  geohash : String
  date : ℤ
  tmin : Option ℚ
  tmax : Option ℚ
  radiation : Option ℚ
  rain : Option ℚ
  rh : Option ℚ
  wind : Option ℚ
  et0 : Option ℚ
deriving DecidableEq

/-- The conflict key `(geohash, date)`. -/
def dailyKey (r : DailyRow) : String × ℤ := (r.geohash, r.date)

/-- Whether some row with key `k` is present. -/
def hasKey (store : List DailyRow) (k : String × ℤ) : Bool :=
  store.any (fun r => dailyKey r == k)

/-- The first row with key `k` (the one every SQL query sees, keys being
unique in the real table). -/
def lookupKey (store : List DailyRow) (k : String × ℤ) : Option DailyRow :=
  store.find? (fun r => dailyKey r == k)

/-- Number of rows with key `k`. -/
def countKey (store : List DailyRow) (k : String × ℤ) : ℕ :=
  (store.filter (fun r => dailyKey r == k)).length

/-- The table invariant: the unique index on `(geohash, date)`. -/
def keyUnique (store : List DailyRow) : Prop :=
  (store.map dailyKey).Nodup

/-- `INSERT ... ON CONFLICT (geohash, date) DO NOTHING` of a single row. -/
def insertDaily (store : List DailyRow) (r : DailyRow) : List DailyRow :=
  if hasKey store (dailyKey r) then store else store ++ [r]

/-- Lines 130-136 of ingest_climate.py: the in-batch dict dedup — first
occurrence of each `(geohash, date)` key wins, later ones are dropped,
insertion order kept (a Python dict preserves insertion order). -/
def dedupFirst (rows : List DailyRow) : List DailyRow :=
  rows.foldl insertDaily []

/-- Lines 145-146: split into batches of `batch_size = 500`. -/
def chunksOf {α : Type} (n : ℕ) : List α → List (List α)
  | [] => []
  | a :: l => (a :: l.take (n - 1)) :: chunksOf n (l.drop (n - 1))
termination_by l => l.length
decreasing_by simp [List.length_drop]; omega

/-- Lines 140-158: dedup, chunk into batches of 500, insert each batch with
the do-nothing conflict policy. -/
def ingestRows (store rows : List DailyRow) : List DailyRow :=
  (chunksOf 500 (dedupFirst rows)).foldl (fun s c => c.foldl insertDaily s) store

/-- Lines 106-126: one tuple per day, with ET0 recomputed from the five
meteorological fields (an exception from `compute_et0` propagates). -/
structure DayData where
  date : ℤ
  tmin : Option ℚ
  tmax : Option ℚ
  radiation : Option ℚ
  rain : Option ℚ
  rh : Option ℚ
  wind : Option ℚ
deriving DecidableEq

/-- One per-cell entry of the fetcher's JSON output, as read by ingestion. -/
structure CellSeries where
  geohash : String
  weather_data : List DayData
deriving DecidableEq

/-- The row built for one day of one cell (lines 107-126). -/
def mkDailyRow (pexp : ℚ → Except Unit ℚ) (ppow : ℚ → ℚ → Except Unit ℚ)
    (g : String) (d : DayData) :
    Except Unit DailyRow :=
  match compute_et0 pexp ppow d.tmin d.tmax d.radiation d.rh d.wind with
  | .error e => .error e
  | .ok et0 => .ok ⟨g, d.date, d.tmin, d.tmax, d.radiation, d.rain, d.rh, d.wind, et0⟩

/-- All rows of one cell, in source order. -/
def buildSeries (pexp : ℚ → Except Unit ℚ) (ppow : ℚ → ℚ → Except Unit ℚ)
    (res : CellSeries) :
    Except Unit (List DailyRow) :=
  res.weather_data.mapM (mkDailyRow pexp ppow res.geohash)

/-- `daily_data` (lines 99-126): all rows of all cells, in iteration order. -/
def buildDaily (pexp : ℚ → Except Unit ℚ) (ppow : ℚ → ℚ → Except Unit ℚ)
    (results : List CellSeries) :
    Except Unit (List DailyRow) :=
  match results.mapM (buildSeries pexp ppow) with
  | .error e => .error e
  | .ok ls => .ok ls.flatten

/-- `ingest_climate_daily` (ingest_climate.py lines 97-163): build the daily
tuples, dedup in batch, and write with the do-nothing conflict policy. -/
def ingest_climate_daily (pexp : ℚ → Except Unit ℚ) (ppow : ℚ → ℚ → Except Unit ℚ)
    (store : List DailyRow) (results : List CellSeries) :
    Except Unit (List DailyRow) :=
  match buildDaily pexp ppow results with
  | .error e => .error e
  | .ok rows => .ok (ingestRows store rows)

lemma chunksOf_foldl {α β : Type} (n : ℕ) (f : β → α → β) :
    ∀ (l : List α) (b : β),
      (chunksOf n l).foldl (fun s c => c.foldl f s) b = l.foldl f b := by
  have key : ∀ (len : ℕ) (l : List α), l.length ≤ len → ∀ b,
      (chunksOf n l).foldl (fun s c => c.foldl f s) b = l.foldl f b := by
    intro len
    induction len with
    | zero =>
      intro l hl b
      rcases l with _ | ⟨a, t⟩
      · rw [chunksOf]; rfl
      · simp at hl
    | succ m ih =>
      intro l hl b
      rcases l with _ | ⟨a, t⟩
      · rw [chunksOf]; rfl
      · rw [chunksOf]
        simp only [List.foldl_cons]
        rw [ih (t.drop (n - 1)) (by simp only [List.length_drop]; simp at hl; omega)]
        rw [← List.foldl_append, List.take_append_drop]
  exact fun l => key l.length l le_rfl

lemma ingestRows_eq_foldl (store rows : List DailyRow) :
    ingestRows store rows = (dedupFirst rows).foldl insertDaily store := by
  rw [ingestRows, chunksOf_foldl]

lemma hasKey_nil (k : String × ℤ) : hasKey [] k = false := rfl

lemma hasKey_cons (a : DailyRow) (t : List DailyRow) (k : String × ℤ) :
    hasKey (a :: t) k = ((dailyKey a == k) || hasKey t k) := by
  simp [hasKey]

lemma hasKey_append (s t : List DailyRow) (k : String × ℤ) :
    hasKey (s ++ t) k = (hasKey s k || hasKey t k) := by
  simp [hasKey, List.any_append]

lemma hasKey_true_iff (s : List DailyRow) (k : String × ℤ) :
    hasKey s k = true ↔ ∃ r ∈ s, dailyKey r = k := by
  simp [hasKey]

lemma lookupKey_cons_pos {a : DailyRow} {t : List DailyRow} {k : String × ℤ}
    (h : (dailyKey a == k) = true) : lookupKey (a :: t) k = some a := by
  unfold lookupKey
  exact List.find?_cons_of_pos _ h

lemma lookupKey_cons_neg {a : DailyRow} {t : List DailyRow} {k : String × ℤ}
    (h : (dailyKey a == k) = false) : lookupKey (a :: t) k = lookupKey t k := by
  unfold lookupKey
  exact List.find?_cons_of_neg _ (by simp [h])

lemma lookupKey_eq_none {s : List DailyRow} {k : String × ℤ}
    (h : hasKey s k = false) : lookupKey s k = none := by
  induction s with
  | nil => rfl
  | cons a t ih =>
    rw [hasKey_cons, Bool.or_eq_false_iff] at h
    rw [lookupKey_cons_neg h.1]
    exact ih h.2

lemma lookupKey_append_left {s : List DailyRow} {k : String × ℤ}
    (t : List DailyRow) (h : hasKey s k = true) :
    lookupKey (s ++ t) k = lookupKey s k := by
  induction s with
  | nil => rw [hasKey_nil] at h; cases h
  | cons a u ih =>
    rw [hasKey_cons] at h
    rcases ha : dailyKey a == k with _ | _
    · rw [ha, Bool.false_or] at h
      rw [List.cons_append, lookupKey_cons_neg ha, lookupKey_cons_neg ha]
      exact ih h
    · rw [List.cons_append, lookupKey_cons_pos ha, lookupKey_cons_pos ha]

lemma lookupKey_append_right {s : List DailyRow} {k : String × ℤ}
    (t : List DailyRow) (h : hasKey s k = false) :
    lookupKey (s ++ t) k = lookupKey t k := by
  induction s with
  | nil => rfl
  | cons a u ih =>
    rw [hasKey_cons, Bool.or_eq_false_iff] at h
    rw [List.cons_append, lookupKey_cons_neg h.1]
    exact ih h.2

lemma insertDaily_of_hasKey {store : List DailyRow} {r : DailyRow}
    (h : hasKey store (dailyKey r) = true) : insertDaily store r = store := by
  rw [insertDaily, if_pos h]

lemma insertDaily_of_newKey {store : List DailyRow} {r : DailyRow}
    (h : hasKey store (dailyKey r) = false) :
    insertDaily store r = store ++ [r] := by
  rw [insertDaily, if_neg (by simp [h])]

lemma hasKey_insertDaily (store : List DailyRow) (r : DailyRow) (k : String × ℤ) :
    hasKey (insertDaily store r) k = (hasKey store k || (dailyKey r == k)) := by
  rcases h : hasKey store (dailyKey r) with _ | _
  · rw [insertDaily_of_newKey h, hasKey_append, hasKey_cons, hasKey_nil, Bool.or_false]
  · rw [insertDaily_of_hasKey h]
    rcases hrk : dailyKey r == k with _ | _
    · rw [Bool.or_false]
    · have h2 : hasKey store k = true := by rw [← beq_iff_eq.mp hrk]; exact h
      rw [h2, Bool.true_or]

lemma lookupKey_insertDaily {store : List DailyRow} (r : DailyRow)
    {k : String × ℤ} (h : hasKey store k = true) :
    lookupKey (insertDaily store r) k = lookupKey store k := by
  rcases hk : hasKey store (dailyKey r) with _ | _
  · rw [insertDaily_of_newKey hk, lookupKey_append_left _ h]
  · rw [insertDaily_of_hasKey hk]

lemma keyUnique_insertDaily {store : List DailyRow} (r : DailyRow)
    (h : keyUnique store) : keyUnique (insertDaily store r) := by
  rcases hk : hasKey store (dailyKey r) with _ | _
  · rw [insertDaily_of_newKey hk, keyUnique, List.map_append, List.nodup_append]
    refine ⟨h, by simp, ?_⟩
    intro k hk2 hmem
    have heq : k = dailyKey r := by simpa using hmem
    obtain ⟨rr, hrr, hrk⟩ := List.mem_map.mp hk2
    have : hasKey store (dailyKey r) = true :=
      (hasKey_true_iff _ _).mpr ⟨rr, hrr, by rw [hrk, heq]⟩
    rw [this] at hk
    cases hk
  · rw [insertDaily_of_hasKey hk]
    exact h

lemma insFold_hasKey_mono (rows : List DailyRow) :
    ∀ (store : List DailyRow) (k : String × ℤ), hasKey store k = true →
      hasKey (rows.foldl insertDaily store) k = true := by
  induction rows with
  | nil => exact fun store k h => h
  | cons r rs ih =>
    intro store k h
    rw [List.foldl_cons]
    exact ih _ _ (by rw [hasKey_insertDaily, h, Bool.true_or])

lemma insFold_lookup_preserved (rows : List DailyRow) :
    ∀ (store : List DailyRow) (k : String × ℤ), hasKey store k = true →
      lookupKey (rows.foldl insertDaily store) k = lookupKey store k := by
  induction rows with
  | nil => exact fun store k _ => rfl
  | cons r rs ih =>
    intro store k h
    rw [List.foldl_cons,
      ih _ _ (by rw [hasKey_insertDaily, h, Bool.true_or]),
      lookupKey_insertDaily r h]

lemma insFold_hasKey_iff (rows : List DailyRow) :
    ∀ (store : List DailyRow) (k : String × ℤ),
      hasKey (rows.foldl insertDaily store) k = true ↔
        hasKey store k = true ∨ ∃ r ∈ rows, dailyKey r = k := by
  induction rows with
  | nil => simp
  | cons r rs ih =>
    intro store k
    rw [List.foldl_cons, ih, hasKey_insertDaily]
    constructor
    · rintro (h | h)
      · rcases Bool.or_eq_true _ _ |>.mp h with h | h
        · exact Or.inl h
        · exact Or.inr ⟨r, by simp, beq_iff_eq.mp h⟩
      · obtain ⟨x, hx, hk⟩ := h
        exact Or.inr ⟨x, by simp [hx], hk⟩
    · rintro (h | ⟨x, hx, hk⟩)
      · exact Or.inl (by rw [h, Bool.true_or])
      · rcases List.mem_cons.mp hx with rfl | hx
        · exact Or.inl (by simp [hk])
        · exact Or.inr ⟨x, hx, hk⟩

lemma insFold_keyUnique (rows : List DailyRow) :
    ∀ (store : List DailyRow), keyUnique store →
      keyUnique (rows.foldl insertDaily store) := by
  induction rows with
  | nil => exact fun store h => h
  | cons r rs ih =>
    intro store h
    rw [List.foldl_cons]
    exact ih _ (keyUnique_insertDaily r h)

lemma insFold_noop (rows : List DailyRow) :
    ∀ (store : List DailyRow),
      (∀ r ∈ rows, hasKey store (dailyKey r) = true) →
      rows.foldl insertDaily store = store := by
  induction rows with
  | nil => exact fun store _ => rfl
  | cons r rs ih =>
    intro store h
    rw [List.foldl_cons, insertDaily_of_hasKey (h r (by simp))]
    exact ih store (fun x hx => h x (by simp [hx]))

lemma countKey_cons (a : DailyRow) (t : List DailyRow) (k : String × ℤ) :
    countKey (a :: t) k
      = countKey t k + (if (dailyKey a == k) = true then 1 else 0) := by
  simp [countKey, List.filter_cons]
  split <;> simp

lemma countKey_eq_zero {s : List DailyRow} {k : String × ℤ}
    (h : hasKey s k = false) : countKey s k = 0 := by
  induction s with
  | nil => rfl
  | cons a t ih =>
    rw [hasKey_cons, Bool.or_eq_false_iff] at h
    rw [countKey_cons, if_neg (by simp [h.1]), ih h.2]

lemma countKey_eq_one {s : List DailyRow} {k : String × ℤ}
    (hu : keyUnique s) (h : hasKey s k = true) : countKey s k = 1 := by
  induction s with
  | nil => cases h
  | cons a t ih =>
    have hu1 : dailyKey a ∉ t.map dailyKey := (List.nodup_cons.mp hu).1
    have hu2 : keyUnique t := (List.nodup_cons.mp hu).2
    rcases ha : dailyKey a == k with _ | _
    · rw [hasKey_cons, ha, Bool.false_or] at h
      rw [countKey_cons, if_neg (by simp [ha]), ih hu2 h]
    · have ht : hasKey t k = false := by
        rcases hb : hasKey t k with _ | _
        · rfl
        · obtain ⟨r, hr, hrk⟩ := (hasKey_true_iff _ _).mp hb
          exact absurd (List.mem_map.mpr ⟨r, hr, by rw [hrk, beq_iff_eq.mp ha]⟩) hu1
      rw [countKey_cons, if_pos (by simp [ha]), countKey_eq_zero ht]

lemma dedupFirst_keyUnique (rows : List DailyRow) : keyUnique (dedupFirst rows) :=
  insFold_keyUnique rows [] (by simp [keyUnique])

lemma dedupFirst_hasKey (rows : List DailyRow) (k : String × ℤ) :
    hasKey (dedupFirst rows) k = true ↔ ∃ r ∈ rows, dailyKey r = k := by
  rw [dedupFirst, insFold_hasKey_iff]
  simp [hasKey]

lemma insFold_lookup_first (rows : List DailyRow) :
    ∀ (acc : List DailyRow) (k : String × ℤ), hasKey acc k = false →
      lookupKey (rows.foldl insertDaily acc) k = lookupKey rows k := by
  induction rows with
  | nil => exact fun acc k h => lookupKey_eq_none h
  | cons r rs ih =>
    intro acc k h
    rw [List.foldl_cons]
    rcases hacc : hasKey acc (dailyKey r) with _ | _
    · rw [insertDaily_of_newKey hacc]
      rcases hrk : dailyKey r == k with _ | _
      · rw [ih (acc ++ [r]) k
            (by simp [hasKey_append, h, hasKey_cons, hasKey_nil, hrk]),
          lookupKey_cons_neg hrk]
      · rw [insFold_lookup_preserved rs (acc ++ [r]) k
            (by simp [hasKey_append, hasKey_cons, hrk]),
          lookupKey_append_right _ h, lookupKey_cons_pos hrk, lookupKey_cons_pos hrk]
    · rw [insertDaily_of_hasKey hacc]
      have hrk : (dailyKey r == k) = false := by
        rcases hrk : dailyKey r == k with _ | _
        · rfl
        · exfalso
          rw [beq_iff_eq.mp hrk] at hacc
          rw [hacc] at h
          cases h
      rw [ih acc k h, lookupKey_cons_neg hrk]

lemma dedupFirst_lookup (rows : List DailyRow) (k : String × ℤ) :
    lookupKey (dedupFirst rows) k = lookupKey rows k :=
  insFold_lookup_first rows [] k rfl

/-- C2: the daily write path is first-write-wins.  For any table state
satisfying the unique-key invariant and any ingestion run whose row build
succeeds: the run writes with the do-nothing conflict policy; rows whose key
already exists in the table are left untouched; re-running the identical
ingestion is a complete no-op; and each ingested key ends up with exactly one
stored record, keeping the invariant. -/
theorem claim_C2 (pexp : ℚ → Except Unit ℚ) (ppow : ℚ → ℚ → Except Unit ℚ)
    (store : List DailyRow) (results : List CellSeries) (rows : List DailyRow)
    (hu : keyUnique store) (hb : buildDaily pexp ppow results = .ok rows) :
    ingest_climate_daily pexp ppow store results = .ok (ingestRows store rows) ∧
    (∀ k, hasKey store k = true →
      lookupKey (ingestRows store rows) k = lookupKey store k) ∧
    ingest_climate_daily pexp ppow (ingestRows store rows) results
      = .ok (ingestRows store rows) ∧
    (∀ r ∈ rows, countKey (ingestRows store rows) (dailyKey r) = 1) ∧
    keyUnique (ingestRows store rows) := by
  have huniq : keyUnique (ingestRows store rows) := by
    rw [ingestRows_eq_foldl]
    exact insFold_keyUnique _ _ hu
  refine ⟨by rw [ingest_climate_daily, hb], ?_, ?_, ?_, huniq⟩
  · intro k hk
    rw [ingestRows_eq_foldl]
    exact insFold_lookup_preserved _ _ _ hk
  · rw [ingest_climate_daily, hb]
    have hnoop : ingestRows (ingestRows store rows) rows = ingestRows store rows := by
      rw [ingestRows_eq_foldl (ingestRows store rows) rows]
      apply insFold_noop
      intro r hr
      rw [ingestRows_eq_foldl, insFold_hasKey_iff]
      exact Or.inr ⟨r, hr, rfl⟩
    exact congrArg Except.ok hnoop
  · intro r hr
    have hk : hasKey (ingestRows store rows) (dailyKey r) = true := by
      rw [ingestRows_eq_foldl, insFold_hasKey_iff]
      exact Or.inr ((hasKey_true_iff _ _).mp
        ((dedupFirst_hasKey rows (dailyKey r)).mpr ⟨r, hr, rfl⟩))
    exact countKey_eq_one huniq hk

/-- Concrete ingestion input for the C2 witness: one cell, one day, with an
unknown tmin (so the derived ET0 is unknown as well). -/
def resultsC2 : List CellSeries :=
  [⟨"abc1234", [⟨0, none, some 20, some 5, some 0, some 50, some 2⟩]⟩]

/-- The row that `buildDaily` produces for `resultsC2`. -/
def rowsC2 : List DailyRow :=
  [⟨"abc1234", 0, none, some 20, some 5, some 0, some 50, some 2, none⟩]

/-- Witness for C2: the ingestion guarantees instantiated on a concrete
one-row run against an empty table. -/
theorem claim_C2_witness :
    ingest_climate_daily (fun _ => .ok 1) (fun _ _ => .ok 1) [] resultsC2
      = .ok (ingestRows [] rowsC2) ∧
    (∀ k, hasKey [] k = true →
      lookupKey (ingestRows [] rowsC2) k = lookupKey [] k) ∧
    ingest_climate_daily (fun _ => .ok 1) (fun _ _ => .ok 1)
      (ingestRows [] rowsC2) resultsC2 = .ok (ingestRows [] rowsC2) ∧
    (∀ r ∈ rowsC2, countKey (ingestRows [] rowsC2) (dailyKey r) = 1) ∧
    keyUnique (ingestRows [] rowsC2) :=
  claim_C2 (fun _ => .ok 1) (fun _ _ => .ok 1) [] resultsC2 rowsC2
    (by simp [keyUnique]) (by rfl)

/-- C7: in-batch deduplication by `(geohash, date)`.  The deduplicated batch
has unique keys; for every key it keeps exactly the first entry in iteration
order (so later duplicates are silently discarded); and after the write,
any key present in the batch has exactly one stored record. -/
theorem claim_C7 (rows store : List DailyRow) (k : String × ℤ)
    (hu : keyUnique store) :
    keyUnique (dedupFirst rows) ∧
    lookupKey (dedupFirst rows) k = lookupKey rows k ∧
    ((∃ r ∈ rows, dailyKey r = k) → countKey (ingestRows store rows) k = 1) := by
  refine ⟨dedupFirst_keyUnique rows, dedupFirst_lookup rows k, ?_⟩
  intro hex
  have hk : hasKey (ingestRows store rows) k = true := by
    rw [ingestRows_eq_foldl, insFold_hasKey_iff]
    exact Or.inr ((hasKey_true_iff _ _).mp ((dedupFirst_hasKey rows k).mpr hex))
  have huniq : keyUnique (ingestRows store rows) := by
    rw [ingestRows_eq_foldl]
    exact insFold_keyUnique _ _ hu
  exact countKey_eq_one huniq hk

/-- Concrete batch for the C7 witness: two entries sharing the key
`("abc1234", 0)` with different values. -/
def rowsC7 : List DailyRow :=
  [⟨"abc1234", 0, some 1, some 2, some 3, some 4, some 5, some 6, none⟩,
   ⟨"abc1234", 0, some 7, some 8, some 9, some 10, some 11, some 12, none⟩]

/-- Witness for C7: a batch with two entries sharing one key results in a
unique-keyed deduplicated batch that keeps the first entry, and in exactly
one stored record for that key. -/
theorem claim_C7_witness :
    keyUnique (dedupFirst rowsC7) ∧
    lookupKey (dedupFirst rowsC7) ("abc1234", 0) = lookupKey rowsC7 ("abc1234", 0) ∧
    countKey (ingestRows [] rowsC7) ("abc1234", 0) = 1 := by
  have h := claim_C7 rowsC7 [] ("abc1234", 0) (by simp [keyUnique])
  exact ⟨h.1, h.2.1, h.2.2 ⟨rowsC7.head (by simp [rowsC7]), by simp [rowsC7], rfl⟩⟩

/-!
## Grid upsert (`ingest_grid_points`, ingest_climate.py lines 53-95)

The POLYGON WKT string is modelled as its closed coordinate ring.
-/

/-- One per-cell entry as seen by `ingest_grid_points` (fields via `.get`,
hence individually absent-able). -/
structure FetchEntry where
  geohash : Option String
  latitude : Option ℚ
  longitude : Option ℚ
  bbox : List (List (ℚ × ℚ))
deriving DecidableEq

/-- One row of the `grid_100m` table. -/
structure GridRow where
  geohash : String
  lat : ℚ
  lon : ℚ
  geom : Option (List (ℚ × ℚ))
deriving DecidableEq

/-- Lines 63-71: build the polygon ring from `bbox[0]` when it has at least
4 coordinates, closing the ring when its first and last points differ. -/
def mkGeom (bbox : List (List (ℚ × ℚ))) : Option (List (ℚ × ℚ)) :=
  match bbox with
  | [] => none
  | coords :: _ =>
    match coords with
    | [] => none
    | c0 :: _ =>
      if 4 ≤ coords.length then
        some (if coords.getLast? ≠ some c0 then coords ++ [c0] else coords)
      else none

/-- Lines 58-78: process one entry.  The Python guard is
`if geohash and result.get('latitude') and result.get('longitude')`, i.e.
all three truthy — `None`, the empty string, and the float `0.0` all fail
it; among passing entries, the first occurrence of a geohash wins. -/
def gridStep (acc : List GridRow) (e : FetchEntry) : List GridRow :=
  match e.geohash, e.latitude, e.longitude with
  | some g, some la, some lo =>
    if g ≠ "" ∧ la ≠ 0 ∧ lo ≠ 0 then
      if acc.any (fun row => row.geohash == g) then acc
      else acc ++ [⟨g, la, lo, mkGeom e.bbox⟩]
    else acc
  | _, _, _ => acc

/-- `grid_data` (lines 56-80): the rows handed to the grid upsert. -/
def gridRows (results : List FetchEntry) : List GridRow :=
  results.foldl gridStep []

lemma gridStep_mem {acc : List GridRow} {e : FetchEntry} {row : GridRow}
    (h : row ∈ gridStep acc e) :
    row ∈ acc ∨
      (e.geohash = some row.geohash ∧ e.latitude = some row.lat ∧
       e.longitude = some row.lon ∧ row.geohash ≠ "" ∧ row.lat ≠ 0 ∧ row.lon ≠ 0) := by
  rw [gridStep] at h
  rcases hg : e.geohash with _ | g <;> rw [hg] at h
  · exact Or.inl h
  rcases hla : e.latitude with _ | la <;> rw [hla] at h
  · exact Or.inl h
  rcases hlo : e.longitude with _ | lo <;> rw [hlo] at h
  · exact Or.inl h
  dsimp only at h
  by_cases hc : g ≠ "" ∧ la ≠ 0 ∧ lo ≠ 0
  · rw [if_pos hc] at h
    by_cases hdup : acc.any (fun row => row.geohash == g) = true
    · rw [if_pos hdup] at h
      exact Or.inl h
    · rw [if_neg hdup] at h
      rcases List.mem_append.mp h with h | h
      · exact Or.inl h
      · obtain rfl := List.mem_singleton.mp h
        exact Or.inr ⟨rfl, rfl, rfl, hc.1, hc.2.1, hc.2.2⟩
  · rw [if_neg hc] at h
    exact Or.inl h

lemma gridRows_from (results : List FetchEntry) :
    ∀ (acc : List GridRow) (row : GridRow), row ∈ results.foldl gridStep acc →
      row ∈ acc ∨ ∃ e ∈ results,
        e.geohash = some row.geohash ∧ e.latitude = some row.lat ∧
        e.longitude = some row.lon ∧ row.geohash ≠ "" ∧ row.lat ≠ 0 ∧ row.lon ≠ 0 := by
  induction results with
  | nil => exact fun acc row h => Or.inl h
  | cons e es ih =>
    intro acc row h
    rw [List.foldl_cons] at h
    rcases ih (gridStep acc e) row h with h2 | ⟨x, hx, hprop⟩
    · rcases gridStep_mem h2 with h3 | h3
      · exact Or.inl h3
      · exact Or.inr ⟨e, by simp, h3⟩
    · exact Or.inr ⟨x, by simp [hx], hprop⟩

/-- C10: the grid upsert writes a row only for entries whose geohash,
latitude and longitude are all truthy, and an entry whose latitude or
longitude is exactly 0 (or absent, or whose geohash is empty or absent)
contributes nothing — it is silently excluded from the grid table. -/
theorem claim_C10 (results : List FetchEntry) :
    (∀ row ∈ gridRows results, ∃ e ∈ results,
       e.geohash = some row.geohash ∧ e.latitude = some row.lat ∧
       e.longitude = some row.lon ∧ row.geohash ≠ "" ∧ row.lat ≠ 0 ∧ row.lon ≠ 0) ∧
    (∀ (acc : List GridRow) (e : FetchEntry),
       (e.latitude = some 0 ∨ e.longitude = some 0 ∨ e.latitude = none ∨
        e.longitude = none ∨ e.geohash = none ∨ e.geohash = some "") →
       gridStep acc e = acc) := by
  constructor
  · intro row hrow
    rcases gridRows_from results [] row hrow with h | h
    · cases h
    · exact h
  · intro acc e he
    rw [gridStep]
    rcases hg : e.geohash with _ | g
    · rfl
    rcases hla : e.latitude with _ | la
    · rfl
    rcases hlo : e.longitude with _ | lo
    · rfl
    dsimp only
    rw [if_neg]
    rw [hg, hla, hlo] at he
    rcases he with he | he | he | he | he | he <;> simp_all

/-- Witness for C10: a concrete entry sitting on the equator (latitude
exactly 0) with a valid geohash and longitude contributes no grid row. -/
theorem claim_C10_witness :
    gridStep [] ⟨some "abc1234", some 0, some 9, []⟩ = [] :=
  (claim_C10 []).2 [] ⟨some "abc1234", some 0, some 9, []⟩ (Or.inl rfl)

/-!
## Rolling Aggregator (`scripts/aggregate_7days.py`)

The per-point SQL (lines 117-131) filters `climate_daily` by geohash, the
7-day window, and `tmin IS NOT NULL`; `COUNT(*)`, the six `AVG`s and
`SUM(rain)` are all computed over that filtered row set (SQL aggregates skip
NULLs within it, and return NULL on an empty value set).  `ROUND(x::numeric,
2)` rounds half away from zero.  The `climate_7days` table is modelled as a
list of (row, updated_at) pairs.
-/

/-- One row of the `climate_7days` table (without its timestamp). -/
structure WeeklyRow where
  geohash : String
  start_date : ℤ
  end_date : ℤ
  avg_tmin : Option ℚ
  avg_tmax : Option ℚ
  avg_radiation : Option ℚ
  total_rain : Option ℚ
  avg_rh : Option ℚ
  avg_wind : Option ℚ
  avg_et0 : Option ℚ
deriving DecidableEq

/-- The conflict key `(geohash, end_date)`. -/
def wkey (w : WeeklyRow) : String × ℤ := (w.geohash, w.end_date)

/-- The rows of the per-point aggregate query (lines 117-131): geohash
matches, date in `[target-6, target]`, and `tmin IS NOT NULL`. -/
def windowValidRows (daily : List DailyRow) (g : String) (target : ℤ) :
    List DailyRow :=
  daily.filter (fun r =>
    r.geohash == g && (target - 6 ≤ r.date && r.date ≤ target) && r.tmin.isSome)

/-- `days_count` — `COUNT(*)` over the filtered rows. -/
def daysCount (daily : List DailyRow) (g : String) (target : ℤ) : ℕ :=
  (windowValidRows daily g target).length

/-- `ROUND(AVG(col)::numeric, 2)` over a value multiset: NULL when no
non-null value, else the rounded arithmetic mean. -/
def sqlAvg (vals : List ℚ) : Option ℚ :=
  if vals.length = 0 then none else some (pgRound2 (vals.sum / vals.length))

/-- `ROUND(SUM(col)::numeric, 2)`: NULL when no non-null value, else the
rounded sum. -/
def sqlSum (vals : List ℚ) : Option ℚ :=
  if vals.length = 0 then none else some (pgRound2 vals.sum)

/-- The aggregate tuple appended for one geohash (lines 142-153). -/
def mkWeeklyRow (daily : List DailyRow) (g : String) (target : ℤ) : WeeklyRow :=
  { geohash := g
    start_date := target - 6
    end_date := target
    avg_tmin := sqlAvg ((windowValidRows daily g target).filterMap (fun r => r.tmin))
    avg_tmax := sqlAvg ((windowValidRows daily g target).filterMap (fun r => r.tmax))
    avg_radiation :=
      sqlAvg ((windowValidRows daily g target).filterMap (fun r => r.radiation))
    total_rain := sqlSum ((windowValidRows daily g target).filterMap (fun r => r.rain))
    avg_rh := sqlAvg ((windowValidRows daily g target).filterMap (fun r => r.rh))
    avg_wind := sqlAvg ((windowValidRows daily g target).filterMap (fun r => r.wind))
    avg_et0 := sqlAvg ((windowValidRows daily g target).filterMap (fun r => r.et0)) }

/-- `grid_points` (lines 102-109): the distinct geohashes having at least one
record in the window (the SQL ORDER BY is abstracted away — every claim here
is order-independent). -/
def gridPointsInWindow (daily : List DailyRow) (target : ℤ) : List String :=
  ((daily.filter (fun r => target - 6 ≤ r.date && r.date ≤ target)).map
    (fun r => r.geohash)).dedup

/-- `weekly_data` (lines 112-155): one aggregate per geohash whose
`days_count` meets `min_days_required` (default 3); the others are skipped. -/
def computeWeekly (daily : List DailyRow) (target : ℤ) (m : ℕ) : List WeeklyRow :=
  (gridPointsInWindow daily target).filterMap (fun g =>
    if m ≤ daysCount daily g target then some (mkWeeklyRow daily g target) else none)

/-- `INSERT ... ON CONFLICT (geohash, end_date) DO UPDATE` (lines 163-178):
replace every derived field of the existing row and refresh `updated_at`;
insert a fresh row otherwise. -/
def upsertWeekly (now : ℤ) (store : List (WeeklyRow × ℤ)) (w : WeeklyRow) :
    List (WeeklyRow × ℤ) :=
  if store.any (fun p => wkey p.1 == wkey w) then
    store.map (fun p => if wkey p.1 == wkey w then (w, now) else p)
  else store ++ [(w, now)]

/-- `aggregate_7days` write phase for one target date: upsert every computed
aggregate, stamping `updated_at = now`. -/
def runAggregate (daily : List DailyRow) (target : ℤ) (m : ℕ) (now : ℤ)
    (store : List (WeeklyRow × ℤ)) : List (WeeklyRow × ℤ) :=
  (computeWeekly daily target m).foldl (upsertWeekly now) store

/-- Whether the weekly store holds a row with key `k`. -/
def wHasKey (store : List (WeeklyRow × ℤ)) (k : String × ℤ) : Bool :=
  store.any (fun p => wkey p.1 == k)

/-- The first stored (row, timestamp) with key `k`. -/
def wLookup (store : List (WeeklyRow × ℤ)) (k : String × ℤ) :
    Option (WeeklyRow × ℤ) :=
  store.find? (fun p => wkey p.1 == k)

/-- Number of stored rows with key `k`. -/
def wCount (store : List (WeeklyRow × ℤ)) (k : String × ℤ) : ℕ :=
  (store.filter (fun p => wkey p.1 == k)).length

/-- The unique index on `(geohash, end_date)`. -/
def wUnique (store : List (WeeklyRow × ℤ)) : Prop :=
  (store.map (fun p => wkey p.1)).Nodup

lemma wLookup_cons_pos {a : WeeklyRow × ℤ} {t : List (WeeklyRow × ℤ)}
    {k : String × ℤ} (h : (wkey a.1 == k) = true) :
    wLookup (a :: t) k = some a := by
  unfold wLookup
  exact List.find?_cons_of_pos _ h

lemma wLookup_cons_neg {a : WeeklyRow × ℤ} {t : List (WeeklyRow × ℤ)}
    {k : String × ℤ} (h : (wkey a.1 == k) = false) :
    wLookup (a :: t) k = wLookup t k := by
  unfold wLookup
  exact List.find?_cons_of_neg _ (by simp [h])

lemma wLookup_eq_none {s : List (WeeklyRow × ℤ)} {k : String × ℤ}
    (h : wHasKey s k = false) : wLookup s k = none := by
  induction s with
  | nil => rfl
  | cons a t ih =>
    simp only [wHasKey, List.any_cons, Bool.or_eq_false_iff] at h
    rw [wLookup_cons_neg h.1]
    exact ih (by simp [wHasKey, h.2])

lemma mapReplace_lookup_self (now : ℤ) (w : WeeklyRow) :
    ∀ store : List (WeeklyRow × ℤ), wHasKey store (wkey w) = true →
      wLookup (store.map (fun p => if wkey p.1 == wkey w then (w, now) else p))
        (wkey w) = some (w, now) := by
  intro store
  induction store with
  | nil => intro h; simp [wHasKey] at h
  | cons a t ih =>
    intro h
    rcases ha : wkey a.1 == wkey w with _ | _
    · rw [List.map_cons, if_neg (by simp [ha]), wLookup_cons_neg ha]
      apply ih
      simp only [wHasKey, List.any_cons, ha, Bool.false_or] at h ⊢
      exact h
    · rw [List.map_cons, if_pos (by simp [ha])]
      exact wLookup_cons_pos (by simp)

lemma mapReplace_lookup_other (now : ℤ) (w : WeeklyRow) {k : String × ℤ}
    (hk : k ≠ wkey w) :
    ∀ store : List (WeeklyRow × ℤ),
      wLookup (store.map (fun p => if wkey p.1 == wkey w then (w, now) else p)) k
        = wLookup store k := by
  intro store
  induction store with
  | nil => rfl
  | cons a t ih =>
    rcases haw : wkey a.1 == wkey w with _ | _
    · rw [List.map_cons, if_neg (by simp [haw])]
      rcases ha : wkey a.1 == k with _ | _
      · rw [wLookup_cons_neg ha, wLookup_cons_neg ha, ih]
      · rw [wLookup_cons_pos ha, wLookup_cons_pos ha]
    · rw [List.map_cons, if_pos (by simp [haw])]
      have hak : wkey a.1 ≠ k := by
        rw [beq_iff_eq.mp haw]
        exact Ne.symm hk
      rw [wLookup_cons_neg (by simp [Ne.symm hk]), wLookup_cons_neg (by simp [hak]), ih]

lemma wAppend_lookup_self (now : ℤ) (w : WeeklyRow) :
    ∀ store : List (WeeklyRow × ℤ), wHasKey store (wkey w) = false →
      wLookup (store ++ [(w, now)]) (wkey w) = some (w, now) := by
  intro store
  induction store with
  | nil => exact fun _ => wLookup_cons_pos (by simp)
  | cons a t ih =>
    intro h
    simp only [wHasKey, List.any_cons, Bool.or_eq_false_iff] at h
    rw [List.cons_append, wLookup_cons_neg h.1]
    exact ih (by simp [wHasKey, h.2])

lemma wAppend_lookup_other (now : ℤ) (w : WeeklyRow) {k : String × ℤ}
    (hk : k ≠ wkey w) :
    ∀ store : List (WeeklyRow × ℤ),
      wLookup (store ++ [(w, now)]) k = wLookup store k := by
  intro store
  induction store with
  | nil =>
    rw [List.nil_append, wLookup_cons_neg (by simp [Ne.symm hk])]
  | cons a t ih =>
    rcases ha : wkey a.1 == k with _ | _
    · rw [List.cons_append, wLookup_cons_neg ha, wLookup_cons_neg ha, ih]
    · rw [List.cons_append, wLookup_cons_pos ha, wLookup_cons_pos ha]

lemma upsertWeekly_lookup_self (now : ℤ) (store : List (WeeklyRow × ℤ))
    (w : WeeklyRow) :
    wLookup (upsertWeekly now store w) (wkey w) = some (w, now) := by
  rw [upsertWeekly]
  rcases h : store.any (fun p => wkey p.1 == wkey w) with _ | _
  · rw [if_neg (by simp)]
    exact wAppend_lookup_self now w store (by simp [wHasKey, h])
  · rw [if_pos rfl]
    exact mapReplace_lookup_self now w store (by simp [wHasKey, h])

lemma upsertWeekly_lookup_other (now : ℤ) (store : List (WeeklyRow × ℤ))
    (w : WeeklyRow) {k : String × ℤ} (hk : k ≠ wkey w) :
    wLookup (upsertWeekly now store w) k = wLookup store k := by
  rw [upsertWeekly]
  rcases h : store.any (fun p => wkey p.1 == wkey w) with _ | _
  · rw [if_neg (by simp)]
    exact wAppend_lookup_other now w hk store
  · rw [if_pos rfl]
    exact mapReplace_lookup_other now w hk store

lemma upsertWeekly_unique (now : ℤ) {store : List (WeeklyRow × ℤ)}
    (w : WeeklyRow) (hu : wUnique store) :
    wUnique (upsertWeekly now store w) := by
  rw [upsertWeekly]
  rcases h : store.any (fun p => wkey p.1 == wkey w) with _ | _
  · rw [if_neg (by simp)]
    rw [wUnique, List.map_append, List.nodup_append]
    refine ⟨hu, by simp, ?_⟩
    intro k hk hmem
    have heq : k = wkey w := by simpa using hmem
    obtain ⟨p, hp, hpk⟩ := List.mem_map.mp hk
    have h2 : store.any (fun p => wkey p.1 == wkey w) = true :=
      List.any_eq_true.mpr ⟨p, hp, by simp [hpk, heq]⟩
    rw [h2] at h
    cases h
  · rw [if_pos rfl]
    have hmap : (store.map (fun p => if wkey p.1 == wkey w then (w, now) else p)).map
        (fun p => wkey p.1) = store.map (fun p => wkey p.1) := by
      rw [List.map_map]
      apply List.map_congr_left
      intro p _
      simp only [Function.comp]
      rcases hp : wkey p.1 == wkey w with _ | _
      · rfl
      · simp [beq_iff_eq.mp hp]
    rw [wUnique, hmap]
    exact hu

lemma wfold_lookup_notin (now : ℤ) (W : List WeeklyRow) :
    ∀ (store : List (WeeklyRow × ℤ)) (k : String × ℤ), k ∉ W.map wkey →
      wLookup (W.foldl (upsertWeekly now) store) k = wLookup store k := by
  induction W with
  | nil => exact fun store k _ => rfl
  | cons w ws ih =>
    intro store k hk
    simp only [List.map_cons, List.mem_cons, not_or] at hk
    rw [List.foldl_cons, ih _ _ (by simp [hk.2]),
      upsertWeekly_lookup_other now store w hk.1]

lemma wfold_lookup_mem (now : ℤ) (W : List WeeklyRow) (hW : (W.map wkey).Nodup) :
    ∀ store : List (WeeklyRow × ℤ), ∀ w ∈ W,
      wLookup (W.foldl (upsertWeekly now) store) (wkey w) = some (w, now) := by
  induction W with
  | nil => simp
  | cons v ws ih =>
    intro store w hw
    rw [List.map_cons, List.nodup_cons] at hW
    rw [List.foldl_cons]
    rcases List.mem_cons.mp hw with rfl | hw
    · rw [wfold_lookup_notin now ws _ _ hW.1]
      exact upsertWeekly_lookup_self now store w
    · exact ih hW.2 _ w hw

lemma wfold_unique (now : ℤ) (W : List WeeklyRow) :
    ∀ store : List (WeeklyRow × ℤ), wUnique store →
      wUnique (W.foldl (upsertWeekly now) store) := by
  induction W with
  | nil => exact fun store h => h
  | cons w ws ih =>
    intro store h
    rw [List.foldl_cons]
    exact ih _ (upsertWeekly_unique now w h)

lemma wCount_eq_zero {s : List (WeeklyRow × ℤ)} {k : String × ℤ}
    (h : wHasKey s k = false) : wCount s k = 0 := by
  induction s with
  | nil => rfl
  | cons a t ih =>
    simp only [wHasKey, List.any_cons, Bool.or_eq_false_iff] at h
    rw [wCount, List.filter_cons, if_neg (by simp [h.1])]
    exact ih (by simp [wHasKey, h.2])

lemma wCount_le_one {s : List (WeeklyRow × ℤ)} (hu : wUnique s) (k : String × ℤ) :
    wCount s k ≤ 1 := by
  induction s with
  | nil => exact Nat.zero_le 1
  | cons a t ih =>
    have hu1 : wkey a.1 ∉ t.map (fun p => wkey p.1) := (List.nodup_cons.mp hu).1
    have hu2 : wUnique t := (List.nodup_cons.mp hu).2
    rcases ha : wkey a.1 == k with _ | _
    · rw [wCount, List.filter_cons, if_neg (by simp [ha])]
      exact ih hu2
    · have ht : wHasKey t k = false := by
        rcases hb : wHasKey t k with _ | _
        · rfl
        · obtain ⟨p, hp, hpk⟩ := List.any_eq_true.mp hb
          exact absurd (List.mem_map.mpr ⟨p, hp, by
            rw [beq_iff_eq.mp hpk, beq_iff_eq.mp ha]⟩) hu1
      rw [wCount, List.filter_cons, if_pos (by simp [ha]), List.length_cons]
      rw [show (List.filter (fun p => wkey p.1 == k) t).length = wCount t k from rfl,
        wCount_eq_zero ht]

lemma filterMapWeekly_keys_nodup (daily : List DailyRow) (target : ℤ) (m : ℕ) :
    ∀ gs : List String, gs.Nodup →
      ((gs.filterMap (fun g => if m ≤ daysCount daily g target
          then some (mkWeeklyRow daily g target) else none)).map wkey).Nodup := by
  intro gs
  induction gs with
  | nil => simp
  | cons g tl ih =>
    intro hgs
    have hgs2 := (List.nodup_cons.mp hgs).2
    have hgnot := (List.nodup_cons.mp hgs).1
    rw [List.filterMap_cons]
    rcases hm : (if m ≤ daysCount daily g target
        then some (mkWeeklyRow daily g target) else none) with _ | w
    · exact ih hgs2
    · rw [List.map_cons, List.nodup_cons]
      refine ⟨?_, ih hgs2⟩
      intro hmem
      obtain ⟨w2, hw2, hk2⟩ := List.mem_map.mp hmem
      obtain ⟨g2, hg2, hfg2⟩ := List.mem_filterMap.mp hw2
      by_cases hm2 : m ≤ daysCount daily g2 target
      · rw [if_pos hm2] at hfg2
        obtain rfl := Option.some.inj hfg2
        have hwg : w = mkWeeklyRow daily g target := by
          by_cases hm1 : m ≤ daysCount daily g target
          · rw [if_pos hm1] at hm
            exact (Option.some.inj hm).symm
          · rw [if_neg hm1] at hm
            cases hm
        have hgg : g2 = g := by
          have h1 : wkey (mkWeeklyRow daily g2 target) = (g2, target) := rfl
          have h2 : wkey w = (g, target) := by rw [hwg]; rfl
          rw [h1, h2] at hk2
          exact (Prod.ext_iff.mp hk2).1
        exact hgnot (hgg ▸ hg2)
      · rw [if_neg hm2] at hfg2
        cases hfg2

lemma computeWeekly_keys_nodup (daily : List DailyRow) (target : ℤ) (m : ℕ) :
    ((computeWeekly daily target m).map wkey).Nodup := by
  rw [computeWeekly]
  exact filterMapWeekly_keys_nodup daily target m _ (List.nodup_dedup _)

/-- C4: the weekly write path is an upsert keyed by (geohash, end date).
Re-running the aggregator over unchanged daily data replaces every computed
aggregate in place with identical fields and a refreshed timestamp; rows of
the two runs can differ only in their timestamps; and the unique-key
invariant — at most one aggregate per (cell, window end) — is preserved. -/
theorem claim_C4 (daily : List DailyRow) (target : ℤ) (m : ℕ) (n1 n2 : ℤ)
    (store : List (WeeklyRow × ℤ)) (hu : wUnique store) :
    (∀ w ∈ computeWeekly daily target m,
       wLookup (runAggregate daily target m n1 store) (wkey w) = some (w, n1) ∧
       wLookup (runAggregate daily target m n2
         (runAggregate daily target m n1 store)) (wkey w) = some (w, n2)) ∧
    (∀ k, Option.map Prod.fst (wLookup
        (runAggregate daily target m n2 (runAggregate daily target m n1 store)) k)
      = Option.map Prod.fst (wLookup (runAggregate daily target m n1 store) k)) ∧
    wUnique (runAggregate daily target m n2 (runAggregate daily target m n1 store)) ∧
    (∀ k, wCount (runAggregate daily target m n2
        (runAggregate daily target m n1 store)) k ≤ 1) := by
  have hW := computeWeekly_keys_nodup daily target m
  have hu1 : wUnique (runAggregate daily target m n1 store) := by
    rw [runAggregate]
    exact wfold_unique n1 _ store hu
  have hu2 : wUnique (runAggregate daily target m n2
      (runAggregate daily target m n1 store)) := by
    rw [runAggregate]
    exact wfold_unique n2 _ _ hu1
  refine ⟨?_, ?_, hu2, fun k => wCount_le_one hu2 k⟩
  · intro w hw
    constructor
    · rw [runAggregate]
      exact wfold_lookup_mem n1 _ hW store w hw
    · rw [runAggregate, runAggregate]
      exact wfold_lookup_mem n2 _ hW _ w hw
  · intro k
    by_cases hk : k ∈ (computeWeekly daily target m).map wkey
    · obtain ⟨w, hw, rfl⟩ := List.mem_map.mp hk
      rw [runAggregate, runAggregate,
        wfold_lookup_mem n2 _ hW _ w hw,
        wfold_lookup_mem n1 _ hW store w hw]
      rfl
    · rw [runAggregate, runAggregate,
        wfold_lookup_notin n2 _ _ _ hk]

/-- Concrete daily data for the C4 witness: one cell with three valid days
in the window ending at day 6. -/
def dailyC4 : List DailyRow :=
  [⟨"g4", 4, some 1, some 2, none, none, none, none, none⟩,
   ⟨"g4", 5, some 1, some 2, none, none, none, none, none⟩,
   ⟨"g4", 6, some 1, some 2, none, none, none, none, none⟩]

/-- Witness for C4: two aggregator runs (timestamps 10 then 20) over the
same concrete daily data, starting from an empty aggregate table. -/
theorem claim_C4_witness :
    (∀ w ∈ computeWeekly dailyC4 6 3,
       wLookup (runAggregate dailyC4 6 3 10 []) (wkey w) = some (w, 10) ∧
       wLookup (runAggregate dailyC4 6 3 20
         (runAggregate dailyC4 6 3 10 [])) (wkey w) = some (w, 20)) ∧
    (∀ k, Option.map Prod.fst (wLookup
        (runAggregate dailyC4 6 3 20 (runAggregate dailyC4 6 3 10 [])) k)
      = Option.map Prod.fst (wLookup (runAggregate dailyC4 6 3 10 []) k)) ∧
    wUnique (runAggregate dailyC4 6 3 20 (runAggregate dailyC4 6 3 10 [])) ∧
    (∀ k, wCount (runAggregate dailyC4 6 3 20
        (runAggregate dailyC4 6 3 10 [])) k ≤ 1) :=
  claim_C4 dailyC4 6 3 10 20 [] (by simp [wUnique])

/-- C5: for a cell with at least one record in the 7-day window, an
aggregate row for that cell is produced iff the count of window rows with
non-null tmin reaches the threshold `m`; and (under the table's unique-key
invariant) those rows are on pairwise distinct days, so the count is a count
of days. -/
theorem claim_C5 (daily : List DailyRow) (target : ℤ) (m : ℕ) (g : String)
    (hg : ∃ r ∈ daily, r.geohash = g ∧ target - 6 ≤ r.date ∧ r.date ≤ target) :
    ((∃ w ∈ computeWeekly daily target m, w.geohash = g) ↔
      m ≤ daysCount daily g target) ∧
    (keyUnique daily →
      ((windowValidRows daily g target).map (fun r => r.date)).Nodup) := by
  constructor
  · have hmemg : g ∈ gridPointsInWindow daily target := by
      rw [gridPointsInWindow, List.mem_dedup]
      obtain ⟨r, hr, hrg, h1, h2⟩ := hg
      exact List.mem_map.mpr ⟨r, List.mem_filter.mpr ⟨hr, by simp [h1, h2]⟩, hrg⟩
    constructor
    · rintro ⟨w, hw, hwg⟩
      obtain ⟨g2, hg2, hfg⟩ := List.mem_filterMap.mp hw
      by_cases hm : m ≤ daysCount daily g2 target
      · rw [if_pos hm] at hfg
        obtain rfl := Option.some.inj hfg
        have : g2 = g := hwg
        rw [← this]
        exact hm
      · rw [if_neg hm] at hfg
        cases hfg
    · intro hm
      exact ⟨mkWeeklyRow daily g target,
        List.mem_filterMap.mpr ⟨g, hmemg, by rw [if_pos hm]⟩, rfl⟩
  · intro hud
    have hsub : ((windowValidRows daily g target).map dailyKey).Nodup :=
      List.Nodup.sublist ((List.filter_sublist daily).map dailyKey) hud
    have hmm2 : (windowValidRows daily g target).map (fun r => r.date)
        = ((windowValidRows daily g target).map dailyKey).map Prod.snd := by
      rw [List.map_map]
      rfl
    rw [hmm2]
    refine List.Nodup.map_on ?_ hsub
    intro p hp q hq hpq
    obtain ⟨r, hr, rfl⟩ := List.mem_map.mp hp
    obtain ⟨r2, hr2, rfl⟩ := List.mem_map.mp hq
    have hc1 := (List.mem_filter.mp hr).2
    have hc2 := (List.mem_filter.mp hr2).2
    simp only [Bool.and_eq_true, beq_iff_eq] at hc1 hc2
    exact Prod.ext (show r.geohash = r2.geohash by rw [hc1.1.1, hc2.1.1]) hpq

/-- Concrete daily data for the C5 witness: only two window days carry
non-null tmin. -/
def dailyC5 : List DailyRow :=
  [⟨"g5", 0, some 1, some 2, none, none, none, none, none⟩,
   ⟨"g5", 1, some 1, some 2, none, none, none, none, none⟩,
   ⟨"g5", 2, none, some 3, none, none, none, none, none⟩]

/-- Witness for C5: with 2 valid days and threshold 3, no aggregate row is
produced for the cell. -/
theorem claim_C5_witness :
    daysCount dailyC5 "g5" 6 = 2 ∧
    ¬(∃ w ∈ computeWeekly dailyC5 6 3, w.geohash = "g5") := by
  have hcount : daysCount dailyC5 "g5" 6 = 2 := by
    norm_num [daysCount, windowValidRows, dailyC5, List.filter]
  have h := claim_C5 dailyC5 6 3 "g5"
    ⟨⟨"g5", 0, some 1, some 2, none, none, none, none, none⟩,
      by simp [dailyC5], rfl, by norm_num, by norm_num⟩
  refine ⟨hcount, fun hex => ?_⟩
  have hle := h.1.mp hex
  rw [hcount] at hle
  exact absurd hle (by norm_num)

/-- Concrete daily data refuting C6: three window days have non-null tmin
and tmax 10; a fourth day has null tmin but tmax 100, so it is counted by
the spec's mean but excluded by the SQL filter `tmin IS NOT NULL`. -/
def dailyC6 : List DailyRow :=
  [⟨"g7", 0, some 0, some 10, none, none, none, none, none⟩,
   ⟨"g7", 1, some 0, some 10, none, none, none, none, none⟩,
   ⟨"g7", 2, some 0, some 10, none, none, none, none, none⟩,
   ⟨"g7", 3, none, some 100, none, none, none, none, none⟩]

/-- The claim's reading of an average field, stated from the spec's words
(refinement comparison definition — deliberately NOT from the SQL): the
arithmetic mean of the field's non-null values over ALL the window's daily
records of the cell. -/
def specFieldMean (daily : List DailyRow) (g : String) (target : ℤ)
    (f : DailyRow → Option ℚ) : Option ℚ :=
  let vals := (daily.filter (fun r =>
    r.geohash == g && (target - 6 ≤ r.date && r.date ≤ target))).filterMap f
  if vals.length = 0 then none else some (vals.sum / vals.length)

/-- C6 counterexample: the produced aggregate's avg_tmax is 10 (mean over
the rows with non-null tmin only), while the arithmetic mean of tmax's
non-null values over the window's daily records is 32.5 — the claim's
equality fails on this input. -/
theorem claim_C6_counterexample :
    mkWeeklyRow dailyC6 "g7" 6 ∈ computeWeekly dailyC6 6 3 ∧
    (mkWeeklyRow dailyC6 "g7" 6).avg_tmax = some 10 ∧
    specFieldMean dailyC6 "g7" 6 (fun r => r.tmax) = some (65/2) ∧
    (mkWeeklyRow dailyC6 "g7" 6).avg_tmax
      ≠ specFieldMean dailyC6 "g7" 6 (fun r => r.tmax) := by
  have hmem : mkWeeklyRow dailyC6 "g7" 6 ∈ computeWeekly dailyC6 6 3 := by
    rw [computeWeekly]
    refine List.mem_filterMap.mpr ⟨"g7", ?_, ?_⟩
    · rw [gridPointsInWindow, List.mem_dedup]
      refine List.mem_map.mpr
        ⟨⟨"g7", 0, some 0, some 10, none, none, none, none, none⟩,
         List.mem_filter.mpr ⟨by simp [dailyC6], by norm_num⟩, rfl⟩
    · rw [if_pos (by norm_num [daysCount, windowValidRows, dailyC6, List.filter])]
  have havg : (mkWeeklyRow dailyC6 "g7" 6).avg_tmax = some 10 := by
    norm_num [mkWeeklyRow, windowValidRows, dailyC6, List.filter, sqlAvg,
      List.filterMap_cons, pgRound2, roundHalfAway]
  have hspec : specFieldMean dailyC6 "g7" 6 (fun r => r.tmax) = some (65/2) := by
    norm_num [specFieldMean, dailyC6, List.filter, List.filterMap_cons]
  refine ⟨hmem, havg, hspec, ?_⟩
  rw [havg, hspec]
  norm_num

/-- C6 amended: each average field of a produced aggregate is the rounded
arithmetic mean of that field's non-null values over the window's daily
records **that have non-null tmin** (the SQL filter), and total rain is the
rounded sum over the same filtered rows; on a non-empty value set the
SQL aggregate is exactly the rounded mean (resp. sum). -/
theorem claim_C6_amended (daily : List DailyRow) (target : ℤ) (m : ℕ)
    (w : WeeklyRow) (hw : w ∈ computeWeekly daily target m) :
    ∃ g, w.geohash = g ∧
      w.avg_tmin = sqlAvg ((windowValidRows daily g target).filterMap (fun r => r.tmin)) ∧
      w.avg_tmax = sqlAvg ((windowValidRows daily g target).filterMap (fun r => r.tmax)) ∧
      w.avg_radiation
        = sqlAvg ((windowValidRows daily g target).filterMap (fun r => r.radiation)) ∧
      w.total_rain
        = sqlSum ((windowValidRows daily g target).filterMap (fun r => r.rain)) ∧
      w.avg_rh = sqlAvg ((windowValidRows daily g target).filterMap (fun r => r.rh)) ∧
      w.avg_wind = sqlAvg ((windowValidRows daily g target).filterMap (fun r => r.wind)) ∧
      w.avg_et0 = sqlAvg ((windowValidRows daily g target).filterMap (fun r => r.et0)) ∧
      (∀ vals : List ℚ, vals ≠ [] →
        sqlAvg vals = some (pgRound2 (vals.sum / vals.length))) ∧
      (∀ vals : List ℚ, vals ≠ [] → sqlSum vals = some (pgRound2 vals.sum)) := by
  obtain ⟨g, hg, hfg⟩ := List.mem_filterMap.mp hw
  by_cases hm : m ≤ daysCount daily g target
  · rw [if_pos hm] at hfg
    obtain rfl := Option.some.inj hfg
    exact ⟨g, rfl, rfl, rfl, rfl, rfl, rfl, rfl, rfl,
      fun vals hv => by rw [sqlAvg, if_neg (by simp [hv])],
      fun vals hv => by rw [sqlSum, if_neg (by simp [hv])]⟩
  · rw [if_neg hm] at hfg
    cases hfg

/-- Witness for C6 amended: instantiated on the concrete aggregate produced
from `dailyC6`. -/
theorem claim_C6_amended_witness :
    ∃ g, (mkWeeklyRow dailyC6 "g7" 6).geohash = g ∧
      (mkWeeklyRow dailyC6 "g7" 6).avg_tmin
        = sqlAvg ((windowValidRows dailyC6 g 6).filterMap (fun r => r.tmin)) ∧
      (mkWeeklyRow dailyC6 "g7" 6).avg_tmax
        = sqlAvg ((windowValidRows dailyC6 g 6).filterMap (fun r => r.tmax)) ∧
      (mkWeeklyRow dailyC6 "g7" 6).avg_radiation
        = sqlAvg ((windowValidRows dailyC6 g 6).filterMap (fun r => r.radiation)) ∧
      (mkWeeklyRow dailyC6 "g7" 6).total_rain
        = sqlSum ((windowValidRows dailyC6 g 6).filterMap (fun r => r.rain)) ∧
      (mkWeeklyRow dailyC6 "g7" 6).avg_rh
        = sqlAvg ((windowValidRows dailyC6 g 6).filterMap (fun r => r.rh)) ∧
      (mkWeeklyRow dailyC6 "g7" 6).avg_wind
        = sqlAvg ((windowValidRows dailyC6 g 6).filterMap (fun r => r.wind)) ∧
      (mkWeeklyRow dailyC6 "g7" 6).avg_et0
        = sqlAvg ((windowValidRows dailyC6 g 6).filterMap (fun r => r.et0)) ∧
      (∀ vals : List ℚ, vals ≠ [] →
        sqlAvg vals = some (pgRound2 (vals.sum / vals.length))) ∧
      (∀ vals : List ℚ, vals ≠ [] → sqlSum vals = some (pgRound2 vals.sum)) :=
  claim_C6_amended dailyC6 6 3 (mkWeeklyRow dailyC6 "g7" 6) (by
    rw [computeWeekly]
    refine List.mem_filterMap.mpr ⟨"g7", ?_, ?_⟩
    · rw [gridPointsInWindow, List.mem_dedup]
      refine List.mem_map.mpr
        ⟨⟨"g7", 0, some 0, some 10, none, none, none, none, none⟩,
         List.mem_filter.mpr ⟨by simp [dailyC6], by norm_num⟩, rfl⟩
    · rw [if_pos (by norm_num [daysCount, windowValidRows, dailyC6, List.filter])])

end ETMap
